import Mathlib

/-!
Shallow embedding of the pairwise-ranking core: the profile/list/pair
state machine of the contexts reducers (the reducer over PROFILE_ADD,
PROFILE_SET_CURRENT, LIST_RESET_ROWS, PAIR_SKIP, PAIR_VOTE) together with
the candidate normalizer and pair-list generator of contexts/Profile.js.

JavaScript objects used as string-keyed maps are embedded as insertion
ordered association lists; updating an existing key keeps its position,
a fresh key is appended (the semantics of JS object key order).
JS number scores are embedded as Option Nat, none standing for NaN
(the value produced by incrementing undefined).
Throwing reducers are embedded in the Except monad: an error value means
the JS code threw and the caller kept its previous state.
-/

/-- Lookup in a JS object viewed as an ordered association list. -/
def jsGet {α : Type} : List (String × α) → String → Option α
  | [], _ => none
  | kv :: rest, k => if kv.1 = k then some kv.2 else jsGet rest k

/-- Key update in a JS object: replaces the value at an existing key in
place, appends a fresh key at the end. -/
def jsSet {α : Type} : List (String × α) → String → α → List (String × α)
  | [], k, v => [(k, v)]
  | kv :: rest, k, v => if kv.1 = k then (k, v) :: rest else kv :: jsSet rest k v

/-- The JS spread merge of two objects, second one winning on
shared keys: folds jsSet of every entry of the second map over the first. -/
def jsMerge {α : Type} (m n : List (String × α)) : List (String × α) :=
  n.foldl (fun acc kv => jsSet acc kv.1 kv.2) m

/-- Raw comparison item as parsed from the input rows: a name and an
optional image. -/
structure CItem where
  name : String
  image : Option String
deriving Repr, DecidableEq

/-- Processed comparison candidate: id derived from the name, with a
score. The score is Option Nat: none embeds the JS NaN produced when the
vote reducer increments the score of a missing candidate record. -/
structure Cand where
  id : String
  name : String
  image : Option String
  score : Option Nat
deriving Repr, DecidableEq

/-- A voting pair of the old Profile.js pair list: two full candidate
records and a winner field initialized to the JS value false (none). -/
structure OldPair where
  left : Cand
  right : Cand
  winner : Option String
deriving Repr, DecidableEq

/-- createPairs of contexts/Profile.js: pairs one item against every
entry of the list whose name differs, accumulating with push. -/
def createPairs (item : Cand) (list : List Cand) : List OldPair :=
  list.foldl
    (fun pairList pairItem =>
      if item.name ≠ pairItem.name then
        pairList ++ [{ left := item, right := pairItem, winner := none }]
      else pairList)
    []

/-- createPairList of contexts/Profile.js: concatenates createPairs of
every item of the list against the whole list. -/
def createPairList (list : List Cand) : List OldPair :=
  list.foldl (fun result item => result ++ createPairs item list) []

/-- The name-keyed map built inside uniqueByName of contexts/Profile.js
(and, per the spec, by the Candidate Normalizer of the action creators):
last write wins per derived id, id is the name itself, score starts at 0. -/
def nameMapOf (list : List CItem) : List (String × Cand) :=
  list.foldl
    (fun nameMap item =>
      jsSet nameMap item.name
        { id := item.name, name := item.name, image := item.image, score := some 0 })
    []

/-- uniqueByName of contexts/Profile.js: the values of the name map.
The trailing JS sort() compares the element objects as the equal strings
they stringify to, and being stable it keeps insertion order, so it is
embedded as the identity. -/
def uniqueByName (list : List CItem) : List Cand := (nameMapOf list).map Prod.snd

/-- Voting pair of the newer reducer: symmetric id, the two candidate
ids, and a skip counter. -/
structure VPair where
  id : String
  leftId : String
  rightId : String
  skipped : Nat
deriving Repr, DecidableEq

/-- One profile of the profiles map: candidate map (list), pending pair
queue (pairs) and the stored totalComparisons denominator. -/
structure ProfileItem where
  name : String
  list : List (String × Cand)
  dateTime : Nat
  pairs : List VPair
  totalComparisons : Nat
deriving Repr, DecidableEq

/-- Root state: the current profile key (null embedded as none) and the
profiles map. -/
structure ProfileState where
  currentProfile : Option String
  profiles : List (String × ProfileItem)
deriving Repr, DecidableEq

/-- The tagged actions dispatched to the reducer. profileAdd and
listResetRows carry the data prepared by the action creators
(newProfileId, nameMap, pairList). unknownAction embeds any action whose
type tag matches no case, falling through to the default branch. -/
inductive PAction where
  | profileSetCurrent (id : String)
  | profileAdd (newProfileId : String) (name : String)
      (nameMap : List (String × Cand)) (pairList : List VPair)
  | listResetRows (nameMap : List (String × Cand)) (pairList : List VPair)
  | pairSkip (pairIndex : Nat)
  | pairVote (pairIndex : Nat) (winnerListId : String)
  | unknownAction
deriving Repr, DecidableEq

/-- The record produced by spreading an undefined candidate in the vote
branch of listReducer: an empty object, whose score after the increment
is NaN (none); the other fields stay absent, embedded as defaults. -/
def emptyCand : Cand := { id := "", name := "", image := none, score := none }

/-- The JS increment of an Option Nat score: a number goes up by one,
NaN stays NaN. -/
def jsIncScore (c : Cand) : Cand := { c with score := c.score.map (· + 1) }

/-- listReducer of the newer contexts reducer: on PAIR_VOTE it copies
the record at winnerListId and increments its score; a missing record
silently becomes an entry with a NaN score. Every other action returns
the state unchanged. -/
def listReducer (state : List (String × Cand)) (a : PAction) (listId : String) :
    List (String × Cand) :=
  match a with
  | .pairVote _ _ =>
    match jsGet state listId with
    | some c => jsSet state listId (jsIncScore c)
    | none => jsSet state listId emptyCand
  | _ => state

/-- splice(i, 1) on an array: removes the element at index i when it
exists and is a no-op for an out-of-range index. -/
def jsSplice1 (l : List VPair) (i : Nat) : List VPair := l.take i ++ l.drop (i + 1)

/-- pairReducer of the newer contexts reducer: PAIR_VOTE splices the
pair out of the copied array; PAIR_SKIP increments the skipped counter
of the pair at pairIndex, throwing a TypeError (error) when the index is
out of range because undefined has no skipped property. -/
def pairReducer (state : List VPair) (a : PAction) (pairIndex : Nat) :
    Except String (List VPair) :=
  match a with
  | .pairVote _ _ => .ok (jsSplice1 state pairIndex)
  | .pairSkip _ =>
    if h : pairIndex < state.length then
      .ok (state.set pairIndex
        { state.get ⟨pairIndex, h⟩ with
          skipped := (state.get ⟨pairIndex, h⟩).skipped + 1 })
    else .error "TypeError: cannot increment skipped of undefined"
  | _ => .ok state

/-- Helper of dedupById: keeps each pair whose id was not seen before. -/
def dedupByIdGo (seen : List String) : List VPair → List VPair
  | [] => []
  | p :: rest =>
    if p.id ∈ seen then dedupByIdGo seen rest
    else p :: dedupByIdGo (p.id :: seen) rest

/-- The LIST_RESET_ROWS filter of the newer contexts reducer: keeps an
element exactly when findIndex of its id is its own index, i.e. the
first occurrence of every pair id. -/
def dedupById (l : List VPair) : List VPair := dedupByIdGo [] l

/-- profileReducer of the newer contexts reducer, acting on the profiles
map at the given current profile key, with the Date.now timestamp passed
in explicitly. -/
def profileReducer (state : List (String × ProfileItem)) (a : PAction)
    (currentProfile : String) (now : Nat) :
    Except String (List (String × ProfileItem)) :=
  match a with
  | .profileAdd _ nm nameMap pairList =>
    .ok (jsSet state currentProfile
      { name := nm, list := nameMap, dateTime := now, pairs := pairList,
        totalComparisons := pairList.length })
  | .pairSkip pairIndex =>
    match jsGet state currentProfile with
    | some prof =>
      match pairReducer prof.pairs a pairIndex with
      | .ok ps => .ok (jsSet state currentProfile { prof with dateTime := now, pairs := ps })
      | .error e => .error e
    | none => .error "TypeError: cannot read pairs of undefined"
  | .pairVote pairIndex winnerListId =>
    match jsGet state currentProfile with
    | some prof =>
      match pairReducer prof.pairs a pairIndex with
      | .ok ps =>
        .ok (jsSet state currentProfile
          { prof with
            dateTime := now
            list := listReducer prof.list a winnerListId
            pairs := ps })
      | .error e => .error e
    | none => .error "TypeError: cannot read pairs of undefined"
  | .listResetRows nameMap pairList =>
    match jsGet state currentProfile with
    | some prof =>
      .ok (jsSet state currentProfile
        { prof with
          dateTime := now
          list := jsMerge prof.list nameMap
          pairs := dedupById (prof.pairs ++ pairList) })
    | none => .error "TypeError: cannot read pairs of undefined"
  | _ => .ok state

/-- The guard shared by LIST_RESET_ROWS, PAIR_SKIP and PAIR_VOTE in the
top reducer: throws when no current profile is selected (a null key or a
key absent from the profiles map), otherwise hands the profiles map to
profileReducer. -/
def reduceCurrent (state : ProfileState) (a : PAction) (now : Nat) :
    Except String ProfileState :=
  match state.currentProfile with
  | none => .error "No profile selected!"
  | some cp =>
    match jsGet state.profiles cp with
    | none => .error "No profile selected!"
    | some _ =>
      match profileReducer state.profiles a cp now with
      | .ok ps => .ok { state with profiles := ps }
      | .error e => .error e

/-- The top reducer of the newer contexts reducer file: the apply
function of the spec, switching on the action tag. -/
def reducer (state : ProfileState) (a : PAction) (now : Nat) : Except String ProfileState :=
  match a with
  | .profileSetCurrent i =>
    match jsGet state.profiles i with
    | none => .error ("Invalid profile supplied: " ++ i)
    | some _ => .ok { state with currentProfile := some i }
  | .profileAdd newProfileId _ _ _ =>
    match profileReducer state.profiles a newProfileId now with
    | .ok ps => .ok { currentProfile := some newProfileId, profiles := ps }
    | .error e => .error e
  | .listResetRows _ _ => reduceCurrent state a now
  | .pairSkip _ => reduceCurrent state a now
  | .pairVote _ _ => reduceCurrent state a now
  | .unknownAction => .ok state

/-- Lexicographic comparison of character lists by code point, used to
order the two ids inside a symmetric pair id. -/
def charListLeb : List Char → List Char → Bool
  | [], _ => true
  | _ :: _, [] => false
  | c :: cs, d :: ds =>
    if c.toNat < d.toNat then true
    else if d.toNat < c.toNat then false
    else charListLeb cs ds

/-- Lexicographic comparison of strings by code point. -/
def strLeb (a b : String) : Bool := charListLeb a.data b.data

/-- Modelled from the spec: the symmetric pair id of the missing action
creators file — a deterministic, order-independent composite of the two
candidate ids (the lexicographically smaller id first). -/
def pairId (a b : String) : String := if strLeb a b then a ++ "-" ++ b else b ++ "-" ++ a

/-- Modelled from the spec: the Pair Generator of the missing action
creators file — outer loop over the candidate ids, inner loop over the
remaining ids, emitting one pending pair per combination and skipping
any combination whose symmetric id already appears in existingPairIds. -/
def generatePairs : List String → List String → List VPair
  | [], _ => []
  | x :: rest, existing =>
    rest.filterMap
      (fun y =>
        if pairId x y ∈ existing then none
        else some { id := pairId x y, leftId := x, rightId := y, skipped := 0 })
      ++ generatePairs rest existing

/-- The pair ids currently pending in a profile. -/
def pendingIds (prof : ProfileItem) : List String := prof.pairs.map VPair.id

/-- Modelled from the spec: the mergeCandidates action creator of the
missing action creators file — normalizes the raw items, runs the Pair
Generator against the full candidate id set with existingPairIds derived
from the lifetime pair history (pending plus voted); the voted pair ids
are passed explicitly because the reducer state retains only the pending
queue. -/
def mergeAction (prof : ProfileItem) (votedIds : List String) (raw : List CItem) : PAction :=
  .listResetRows (nameMapOf raw)
    (generatePairs ((jsMerge prof.list (nameMapOf raw)).map Prod.fst)
      (pendingIds prof ++ votedIds))

/-- The derived progress value of the spec: totalComparisons minus the
pending queue length. -/
def progress (prof : ProfileItem) : Int :=
  (prof.totalComparisons : Int) - (prof.pairs.length : Int)

/-- Sum of all candidate scores of a candidate map, reading NaN as 0. -/
def sumScores (l : List (String × Cand)) : Nat :=
  (l.map (fun kv => kv.2.score.getD 0)).sum

/-- Sum of the scores of the current profile, 0 when none is selected. -/
def sumCur (s : ProfileState) : Nat :=
  match s.currentProfile with
  | none => 0
  | some cp =>
    match jsGet s.profiles cp with
    | none => 0
    | some prof => sumScores prof.list

/-- Applies a vote action, keeping the state on a throw (the caller of a
throwing reducer retains its previous state). -/
def applyVote (s : ProfileState) (iv : Nat × String) : ProfileState :=
  match reducer s (.pairVote iv.1 iv.2) 0 with
  | .ok s2 => s2
  | .error _ => s

/-- Applies a list of votes in order. -/
def applyVotes (s : ProfileState) (vs : List (Nat × String)) : ProfileState :=
  vs.foldl applyVote s

/-- A vote is valid when a current profile exists, the index targets a
pending pair, and the winner is a side of that pair and a candidate of
the map with a numeric score. -/
def validVote (s : ProfileState) (i : Nat) (w : String) : Bool :=
  match s.currentProfile with
  | none => false
  | some cp =>
    match jsGet s.profiles cp with
    | none => false
    | some prof =>
      if h : i < prof.pairs.length then
        ((w == (prof.pairs.get ⟨i, h⟩).leftId || w == (prof.pairs.get ⟨i, h⟩).rightId) &&
          (match jsGet prof.list w with
           | some c => c.score.isSome
           | none => false))
      else false

/-- Every vote of the list is valid in the state it is applied to. -/
def validVotes (s : ProfileState) : List (Nat × String) → Bool
  | [] => true
  | iv :: vs => validVote s iv.1 iv.2 && validVotes (applyVote s iv) vs

/-- The root-state invariant of the spec data model: a non-null current
profile keys an existing entry of the profiles map. -/
def invCurrent (s : ProfileState) : Prop :=
  ∀ cp, s.currentProfile = some cp → (jsGet s.profiles cp).isSome = true

/-- A well-formed candidate with a numeric score. -/
def candOf (n : String) (sc : Nat) : Cand :=
  { id := n, name := n, image := none, score := some sc }

/-- Two raw items named A and B. -/
def rawAB : List CItem := [{ name := "A", image := none }, { name := "B", image := none }]

/-- Two raw items named A and D, the merge input of the spec scenario. -/
def rawAD : List CItem := [{ name := "A", image := none }, { name := "D", image := none }]

/-- The pending pair between candidates A and B. -/
def pAB : VPair := { id := pairId "A" "B", leftId := "A", rightId := "B", skipped := 0 }

/-- A two-candidate profile with one pending pair and no votes yet. -/
def profW : ProfileItem :=
  { name := "w", list := [("A", candOf "A" 0), ("B", candOf "B" 0)], dateTime := 0,
    pairs := [pAB], totalComparisons := 1 }

/-- A state whose current profile is profW under the key p. -/
def sW : ProfileState := { currentProfile := some "p", profiles := [("p", profW)] }

/-- A fully voted three-candidate profile: empty pending queue, three
lifetime pairs, three votes cast. -/
def profFull : ProfileItem :=
  { name := "f", list := [("A", candOf "A" 2), ("B", candOf "B" 0), ("C", candOf "C" 1)],
    dateTime := 0, pairs := [], totalComparisons := 3 }

/-- A state whose current profile is profFull under the key f. -/
def sFull : ProfileState := { currentProfile := some "f", profiles := [("f", profFull)] }

/-- The lifetime voted pair ids of profFull. -/
def votedFullIds : List String := [pairId "A" "B", pairId "A" "C", pairId "B" "C"]

/-- The mergeCandidates action merging raw items A and D into profFull. -/
def mergeAD : PAction := mergeAction profFull votedFullIds rawAD

/-- The state the reducer produces from sFull under mergeAD at time 9:
candidate A got its score reset to 0, three pairs were appended, and
totalComparisons stayed at 3. -/
def profFullAfter : ProfileItem :=
  { name := "f",
    list := [("A", candOf "A" 0), ("B", candOf "B" 0), ("C", candOf "C" 1),
             ("D", candOf "D" 0)],
    dateTime := 9,
    pairs := [{ id := pairId "A" "D", leftId := "A", rightId := "D", skipped := 0 },
              { id := pairId "B" "D", leftId := "B", rightId := "D", skipped := 0 },
              { id := pairId "C" "D", leftId := "C", rightId := "D", skipped := 0 }],
    totalComparisons := 3 }

/-- Root state around profFullAfter. -/
def sFullAfter : ProfileState :=
  { currentProfile := some "f", profiles := [("f", profFullAfter)] }

/-- The state the reducer produces from sW when voting with the
out-of-range index 5 at time 7: the queue is untouched but the score of
A has still been incremented. -/
def profWOor : ProfileItem :=
  { name := "w", list := [("A", candOf "A" 1), ("B", candOf "B" 0)], dateTime := 7,
    pairs := [pAB], totalComparisons := 1 }

/-- Root state around profWOor. -/
def sWOor : ProfileState := { currentProfile := some "p", profiles := [("p", profWOor)] }

/-- The state the reducer produces from sW when voting pair 0 with the
unknown winner Z at time 7: the pair is resolved and a Z entry with a
NaN score has been created. -/
def profWZ : ProfileItem :=
  { name := "w",
    list := [("A", candOf "A" 0), ("B", candOf "B" 0), ("Z", emptyCand)], dateTime := 7,
    pairs := [], totalComparisons := 1 }

/-- Root state around profWZ. -/
def sWZ : ProfileState := { currentProfile := some "p", profiles := [("p", profWZ)] }

/-- The state the reducer produces from sW by the valid vote of A on
pair 0 at time 5. -/
def sWVoted : ProfileState :=
  { currentProfile := some "p",
    profiles := [("p",
      { name := "w", list := [("A", candOf "A" 1), ("B", candOf "B" 0)], dateTime := 5,
        pairs := [], totalComparisons := 1 })] }

theorem jsGet_jsSet_self {α : Type} (m : List (String × α)) (k : String) (v : α) :
    jsGet (jsSet m k v) k = some v := by
  induction m with
  | nil => simp [jsSet, jsGet]
  | cons kv rest ih =>
    by_cases h : kv.1 = k
    · simp [jsSet, h, jsGet]
    · simp [jsSet, h, jsGet, ih]

theorem jsGet_jsSet_ne {α : Type} (m : List (String × α)) (k k2 : String) (v : α)
    (h : k2 ≠ k) : jsGet (jsSet m k v) k2 = jsGet m k2 := by
  induction m with
  | nil => simp [jsSet, jsGet, Ne.symm h]
  | cons kv rest ih =>
    obtain ⟨k1, v1⟩ := kv
    by_cases h2 : k1 = k
    · subst h2
      simp [jsSet, jsGet, Ne.symm h]
    · simp [jsSet, h2, jsGet, ih]

theorem mem_keys_jsSet {α : Type} (m : List (String × α)) (k a : String) (v : α) :
    a ∈ (jsSet m k v).map Prod.fst ↔ a ∈ m.map Prod.fst ∨ a = k := by
  induction m with
  | nil => simp [jsSet]
  | cons kv rest ih =>
    obtain ⟨k1, v1⟩ := kv
    by_cases h : k1 = k
    · subst h
      simp [jsSet]
      tauto
    · simp [jsSet, h, ih]
      tauto

theorem nodup_keys_jsSet {α : Type} (m : List (String × α)) (k : String) (v : α)
    (h : (m.map Prod.fst).Nodup) : ((jsSet m k v).map Prod.fst).Nodup := by
  induction m with
  | nil => simp [jsSet]
  | cons kv rest ih =>
    obtain ⟨k1, v1⟩ := kv
    simp only [List.map_cons, List.nodup_cons] at h
    by_cases h2 : k1 = k
    · subst h2
      simpa [jsSet] using h
    · simp only [jsSet, if_neg h2, List.map_cons, List.nodup_cons]
      refine ⟨fun hmem => ?_, ih h.2⟩
      rcases (mem_keys_jsSet rest k k1 v).1 hmem with h3 | h3
      · exact h.1 h3
      · exact h2 h3

theorem jsMerge_cons {α : Type} (m : List (String × α)) (kv : String × α)
    (rest : List (String × α)) :
    jsMerge m (kv :: rest) = jsMerge (jsSet m kv.1 kv.2) rest := rfl

theorem mem_keys_jsMerge {α : Type} (m n : List (String × α)) (a : String) :
    a ∈ (jsMerge m n).map Prod.fst ↔ a ∈ m.map Prod.fst ∨ a ∈ n.map Prod.fst := by
  induction n generalizing m with
  | nil => simp [jsMerge]
  | cons kv rest ih =>
    rw [jsMerge_cons, ih]
    rw [mem_keys_jsSet]
    simp
    tauto

theorem nodup_keys_jsMerge {α : Type} (m n : List (String × α))
    (h : (m.map Prod.fst).Nodup) : ((jsMerge m n).map Prod.fst).Nodup := by
  induction n generalizing m with
  | nil => exact h
  | cons kv rest ih =>
    rw [jsMerge_cons]
    exact ih _ (nodup_keys_jsSet m kv.1 kv.2 h)

theorem sumScores_cons (kv : String × Cand) (l : List (String × Cand)) :
    sumScores (kv :: l) = kv.2.score.getD 0 + sumScores l := by
  simp [sumScores]

theorem sumScores_jsSet (m : List (String × Cand)) (k : String) (c v : Cand)
    (h : jsGet m k = some c) :
    sumScores (jsSet m k v) + c.score.getD 0 = sumScores m + v.score.getD 0 := by
  induction m with
  | nil => simp [jsGet] at h
  | cons kv rest ih =>
    by_cases h2 : kv.1 = k
    · simp only [jsGet, if_pos h2, Option.some.injEq] at h
      subst h
      simp only [jsSet, if_pos h2, sumScores_cons]
      omega
    · simp only [jsGet, if_neg h2] at h
      simp only [jsSet, if_neg h2, sumScores_cons]
      have := ih h
      omega

theorem charListLeb_of_not (xs ys : List Char) (h : charListLeb xs ys = false) :
    charListLeb ys xs = true := by
  induction xs generalizing ys with
  | nil => simp [charListLeb] at h
  | cons c cs ih =>
    cases ys with
    | nil => rfl
    | cons d ds =>
      rw [charListLeb] at h
      by_cases h1 : c.toNat < d.toNat
      · simp [h1] at h
      · rw [if_neg h1] at h
        by_cases h2 : d.toNat < c.toNat
        · rw [charListLeb, if_pos h2]
        · rw [if_neg h2] at h
          rw [charListLeb, if_neg h2, if_neg h1]
          exact ih ds h

theorem charListLeb_antisymm (xs ys : List Char)
    (h1 : charListLeb xs ys = true) (h2 : charListLeb ys xs = true) : xs = ys := by
  induction xs generalizing ys with
  | nil =>
    cases ys with
    | nil => rfl
    | cons d ds => simp [charListLeb] at h2
  | cons c cs ih =>
    cases ys with
    | nil => simp [charListLeb] at h1
    | cons d ds =>
      rw [charListLeb] at h1 h2
      by_cases hcd : c.toNat < d.toNat
      · rw [if_neg (by omega), if_pos hcd] at h2
        cases h2
      · rw [if_neg hcd] at h1
        by_cases hdc : d.toNat < c.toNat
        · rw [if_pos hdc] at h1
          cases h1
        · rw [if_neg hdc] at h1
          rw [if_neg hdc, if_neg hcd] at h2
          have hchar : c = d := Char.eq_of_val_eq (UInt32.ext (by
            have e1 : c.toNat = c.val.toNat := rfl
            have e2 : d.toNat = d.val.toNat := rfl
            omega))
          rw [hchar, ih ds h1 h2]

theorem pairId_comm (a b : String) : pairId a b = pairId b a := by
  unfold pairId
  by_cases hab : strLeb a b <;> by_cases hba : strLeb b a
  · have hdata : a.data = b.data := charListLeb_antisymm a.data b.data hab hba
    have : a = b := by
      cases a
      cases b
      exact congrArg String.mk hdata
    subst this
    rfl
  · simp [hab, hba]
  · simp [hab, hba]
  · exact absurd (charListLeb_of_not a.data b.data (by simpa [strLeb] using hab)) (by simpa [strLeb] using hba)

theorem gen_fresh (ids existing : List String) :
    ∀ p ∈ generatePairs ids existing, p.id ∉ existing := by
  induction ids with
  | nil => simp [generatePairs]
  | cons x rest ih =>
    intro p hp
    rw [generatePairs, List.mem_append] at hp
    rcases hp with hp | hp
    · rcases List.mem_filterMap.1 hp with ⟨y, _, hy⟩
      by_cases hex : pairId x y ∈ existing
      · simp [hex] at hy
      · simp only [if_neg hex, Option.some.injEq] at hy
        subst hy
        exact hex
    · exact ih p hp

theorem gen_complete (ids existing : List String) (a b : String)
    (ha : a ∈ ids) (hb : b ∈ ids) (hne : a ≠ b) :
    pairId a b ∈ existing ∨ pairId a b ∈ (generatePairs ids existing).map VPair.id := by
  induction ids with
  | nil => simp at ha
  | cons x rest ih =>
    rw [generatePairs, List.map_append]
    rcases List.mem_cons.1 ha with ha1 | ha1 <;> rcases List.mem_cons.1 hb with hb1 | hb1
    · exact absurd (ha1.trans hb1.symm) hne
    · subst ha1
      by_cases hex : pairId a b ∈ existing
      · exact Or.inl hex
      · refine Or.inr (List.mem_append.2 (Or.inl ?_))
        refine List.mem_map.2 ⟨⟨pairId a b, a, b, 0⟩, ?_, rfl⟩
        exact List.mem_filterMap.2 ⟨b, hb1, by simp [hex]⟩
    · subst hb1
      rw [pairId_comm]
      by_cases hex : pairId b a ∈ existing
      · exact Or.inl hex
      · refine Or.inr (List.mem_append.2 (Or.inl ?_))
        refine List.mem_map.2 ⟨⟨pairId b a, b, a, 0⟩, ?_, rfl⟩
        exact List.mem_filterMap.2 ⟨a, ha1, by simp [hex]⟩
    · rcases ih ha1 hb1 with h | h
      · exact Or.inl h
      · exact Or.inr (List.mem_append.2 (Or.inr h))

theorem gen_all_existing (ids existing : List String)
    (hnd : ids.Nodup)
    (h : ∀ a ∈ ids, ∀ b ∈ ids, a ≠ b → pairId a b ∈ existing) :
    generatePairs ids existing = [] := by
  induction ids with
  | nil => rfl
  | cons x rest ih =>
    rw [List.nodup_cons] at hnd
    rw [generatePairs]
    have h1 : rest.filterMap
        (fun y =>
          if pairId x y ∈ existing then (none : Option VPair)
          else some { id := pairId x y, leftId := x, rightId := y, skipped := 0 }) = [] := by
      rw [List.filterMap_eq_nil_iff]
      intro y hy
      have hxy : x ≠ y := fun hcon => hnd.1 (hcon ▸ hy)
      simp [h x (List.mem_cons_self x rest) y (List.mem_cons_of_mem x hy) hxy]
    have h2 : generatePairs rest existing = [] :=
      ih hnd.2 (fun a ha b hb hne =>
        h a (List.mem_cons_of_mem x ha) b (List.mem_cons_of_mem x hb) hne)
    rw [h1, h2]
    rfl

theorem dedupByIdGo_eq_self (seen : List String) (l : List VPair)
    (hnd : (l.map VPair.id).Nodup) (hdis : ∀ p ∈ l, p.id ∉ seen) :
    dedupByIdGo seen l = l := by
  induction l generalizing seen with
  | nil => rfl
  | cons p rest ih =>
    rw [List.map_cons, List.nodup_cons] at hnd
    rw [dedupByIdGo, if_neg (hdis p (List.mem_cons_self p rest))]
    congr 1
    refine ih _ hnd.2 fun q hq => ?_
    intro hmem
    rcases List.mem_cons.1 hmem with h1 | h1
    · exact hnd.1 (h1 ▸ List.mem_map_of_mem VPair.id hq)
    · exact hdis q (List.mem_cons_of_mem p hq) h1

theorem dedupById_eq_self (l : List VPair) (hnd : (l.map VPair.id).Nodup) :
    dedupById l = l :=
  dedupByIdGo_eq_self [] l hnd (by simp)

theorem jsSplice1_out (l : List VPair) (i : Nat) (h : l.length ≤ i) :
    jsSplice1 l i = l := by
  rw [jsSplice1, List.take_of_length_le h, List.drop_eq_nil_of_le (by omega),
    List.append_nil]

theorem jsSplice1_length (l : List VPair) (i : Nat) (h : i < l.length) :
    (jsSplice1 l i).length + 1 = l.length := by
  rw [jsSplice1, List.length_append, List.length_take, List.length_drop]
  omega

theorem list_set_get_self {α : Type} (l : List α) (i : Nat) (h : i < l.length) :
    l.set i (l.get ⟨i, h⟩) = l := by
  induction l generalizing i with
  | nil => simp at h
  | cons x rest ih =>
    cases i with
    | zero => rfl
    | succ j =>
      simp only [List.set, List.get]
      rw [ih j (by simpa using h)]

theorem reducer_vote_eq (s : ProfileState) (cp : String) (prof : ProfileItem)
    (i : Nat) (w : String) (now : Nat)
    (h1 : s.currentProfile = some cp) (h2 : jsGet s.profiles cp = some prof) :
    reducer s (.pairVote i w) now =
      .ok { s with
        profiles := jsSet s.profiles cp
          { prof with
            dateTime := now
            list := listReducer prof.list (.pairVote i w) w
            pairs := jsSplice1 prof.pairs i } } := by
  simp only [reducer, reduceCurrent, h1, h2, profileReducer, pairReducer]

theorem reducer_skip_eq (s : ProfileState) (cp : String) (prof : ProfileItem)
    (i : Nat) (now : Nat)
    (h1 : s.currentProfile = some cp) (h2 : jsGet s.profiles cp = some prof)
    (h3 : i < prof.pairs.length) :
    reducer s (.pairSkip i) now =
      .ok { s with
        profiles := jsSet s.profiles cp
          { prof with
            dateTime := now
            pairs := prof.pairs.set i
              { prof.pairs.get ⟨i, h3⟩ with
                skipped := (prof.pairs.get ⟨i, h3⟩).skipped + 1 } } } := by
  simp only [reducer, reduceCurrent, h1, h2, profileReducer, pairReducer]
  rw [dif_pos h3]

theorem reducer_reset_eq (s : ProfileState) (cp : String) (prof : ProfileItem)
    (nm : List (String × Cand)) (pl : List VPair) (now : Nat)
    (h1 : s.currentProfile = some cp) (h2 : jsGet s.profiles cp = some prof) :
    reducer s (.listResetRows nm pl) now =
      .ok { s with
        profiles := jsSet s.profiles cp
          { prof with
            dateTime := now
            list := jsMerge prof.list nm
            pairs := dedupById (prof.pairs ++ pl) } } := by
  simp only [reducer, reduceCurrent, h1, h2, profileReducer]

theorem sumScores_of_all_zero (l : List (String × Cand))
    (h : ∀ kv ∈ l, kv.2.score = some 0) : sumScores l = 0 := by
  rw [sumScores]
  refine List.sum_eq_zero fun x hx => ?_
  rcases List.mem_map.1 hx with ⟨kv, hkv, hmem⟩
  rw [← hmem, h kv hkv]
  rfl

theorem jsSet_all_zero (m : List (String × Cand)) (k : String) (v : Cand)
    (hm : ∀ kv ∈ m, kv.2.score = some 0) (hv : v.score = some 0) :
    ∀ kv ∈ jsSet m k v, kv.2.score = some 0 := by
  induction m with
  | nil =>
    intro kv hkv
    simp only [jsSet, List.mem_singleton] at hkv
    rw [hkv]
    exact hv
  | cons kv0 rest ih =>
    intro kv hkv
    by_cases h : kv0.1 = k
    · simp only [jsSet, if_pos h, List.mem_cons] at hkv
      rcases hkv with h1 | h1
      · rw [h1]; exact hv
      · exact hm kv (List.mem_cons_of_mem kv0 h1)
    · simp only [jsSet, if_neg h, List.mem_cons] at hkv
      rcases hkv with h1 | h1
      · exact hm kv (h1 ▸ List.mem_cons_self kv0 rest)
      · exact ih (fun q hq => hm q (List.mem_cons_of_mem kv0 hq)) kv h1

theorem foldl_nameMap_all_zero (raw : List CItem) (acc : List (String × Cand))
    (hacc : ∀ kv ∈ acc, kv.2.score = some 0) :
    ∀ kv ∈ List.foldl
      (fun (nameMap : List (String × Cand)) (item : CItem) =>
        jsSet nameMap item.name
          { id := item.name, name := item.name, image := item.image, score := some 0 })
      acc raw,
      kv.2.score = some 0 := by
  induction raw generalizing acc with
  | nil => exact hacc
  | cons item rest ih => exact ih _ (jsSet_all_zero acc item.name _ hacc rfl)

theorem nameMapOf_all_zero (raw : List CItem) :
    ∀ kv ∈ nameMapOf raw, kv.2.score = some 0 := by
  rw [nameMapOf]
  exact foldl_nameMap_all_zero raw [] (by simp)

theorem sumScores_nameMapOf (raw : List CItem) : sumScores (nameMapOf raw) = 0 :=
  sumScores_of_all_zero _ (nameMapOf_all_zero raw)

theorem vote_sum_step (s : ProfileState) (iv : Nat × String)
    (h : validVote s iv.1 iv.2 = true) :
    sumCur (applyVote s iv) = sumCur s + 1 := by
  rcases hc : s.currentProfile with _ | cp
  · simp [validVote, hc] at h
  rcases hg : jsGet s.profiles cp with _ | prof
  · simp [validVote, hc, hg] at h
  by_cases hlen : iv.1 < prof.pairs.length
  · simp only [validVote, hc, hg] at h
    rw [dif_pos hlen, Bool.and_eq_true] at h
    rcases hw : jsGet prof.list iv.2 with _ | c
    · simp only [hw] at h
      cases h.2
    simp only [hw] at h
    rcases Option.isSome_iff_exists.1 h.2 with ⟨n, hn⟩
    rw [applyVote]
    rw [reducer_vote_eq s cp prof iv.1 iv.2 0 hc hg]
    have hlistr : listReducer prof.list (.pairVote iv.1 iv.2) iv.2 =
        jsSet prof.list iv.2 (jsIncScore c) := by
      simp only [listReducer, hw]
    have hsum := sumScores_jsSet prof.list iv.2 c (jsIncScore c) hw
    rw [hn] at hsum
    have hinc : (jsIncScore c).score = some (n + 1) := by
      simp [jsIncScore, hn]
    rw [hinc] at hsum
    simp only [Option.getD_some] at hsum
    simp only [sumCur, hc, jsGet_jsSet_self, hlistr, hg]
    omega
  · simp [validVote, hc, hg, hlen] at h

theorem votes_sum (vs : List (Nat × String)) (s : ProfileState)
    (h : validVotes s vs = true) :
    sumCur (applyVotes s vs) = sumCur s + vs.length := by
  induction vs generalizing s with
  | nil => simp [applyVotes]
  | cons iv rest ih =>
    rw [validVotes, Bool.and_eq_true] at h
    have h1 := vote_sum_step s iv h.1
    have h2 := ih (applyVote s iv) h.2
    rw [applyVotes, List.foldl_cons]
    rw [applyVotes] at h2
    rw [h2, h1, List.length_cons]
    omega

theorem profileReducer_ok_shape (ps : List (String × ProfileItem)) (a : PAction)
    (cp : String) (now : Nat) (ps2 : List (String × ProfileItem))
    (h : profileReducer ps a cp now = .ok ps2) :
    (∃ P, ps2 = jsSet ps cp P) ∨ ps2 = ps := by
  cases a with
  | profileSetCurrent i =>
    simp only [profileReducer] at h
    injection h with h
    exact Or.inr h.symm
  | unknownAction =>
    simp only [profileReducer] at h
    injection h with h
    exact Or.inr h.symm
  | profileAdd pid nm mp pl =>
    simp only [profileReducer] at h
    injection h with h
    exact Or.inl ⟨_, h.symm⟩
  | pairSkip i =>
    simp only [profileReducer] at h
    rcases hg : jsGet ps cp with _ | prof
    · rw [hg] at h
      exact Except.noConfusion h
    simp only [hg] at h
    cases hp : pairReducer prof.pairs (.pairSkip i) i with
    | ok ps3 =>
      simp only [hp] at h
      injection h with h
      exact Or.inl ⟨_, h.symm⟩
    | error e =>
      simp only [hp] at h
      exact Except.noConfusion h
  | pairVote i w =>
    simp only [profileReducer] at h
    rcases hg : jsGet ps cp with _ | prof
    · rw [hg] at h
      exact Except.noConfusion h
    simp only [hg] at h
    cases hp : pairReducer prof.pairs (.pairVote i w) i with
    | ok ps3 =>
      simp only [hp] at h
      injection h with h
      exact Or.inl ⟨_, h.symm⟩
    | error e =>
      simp only [hp] at h
      exact Except.noConfusion h
  | listResetRows nm pl =>
    simp only [profileReducer] at h
    rcases hg : jsGet ps cp with _ | prof
    · rw [hg] at h
      exact Except.noConfusion h
    simp only [hg] at h
    injection h with h
    exact Or.inl ⟨_, h.symm⟩

theorem merge_step (s : ProfileState) (cp : String) (prof : ProfileItem)
    (nm : List (String × Cand)) (pl : List VPair) (now : Nat)
    (h1 : s.currentProfile = some cp) (h2 : jsGet s.profiles cp = some prof)
    (hnd : ((prof.pairs ++ pl).map VPair.id).Nodup) :
    reducer s (.listResetRows nm pl) now =
      .ok { s with
        profiles := jsSet s.profiles cp
          { prof with
            dateTime := now
            list := jsMerge prof.list nm
            pairs := prof.pairs ++ pl } } := by
  rw [reducer_reset_eq s cp prof nm pl now h1 h2, dedupById_eq_self _ hnd]

/-- C1: for raw items A and B — two candidates with distinct names after
normalization — createPairList yields 2 pairs, one per orientation of the
single unordered pair, not the claimed 2*(2-1)/2 = 1 pairs with each
unordered pair appearing exactly once. -/
theorem c1_pair_generation_counts :
    (uniqueByName rawAB).length = 2 ∧
    ((uniqueByName rawAB).map Cand.name).Nodup ∧
    createPairList (uniqueByName rawAB) =
      [{ left := candOf "A" 0, right := candOf "B" 0, winner := none },
       { left := candOf "B" 0, right := candOf "A" 0, winner := none }] ∧
    (createPairList (uniqueByName rawAB)).length ≠ 2 * (2 - 1) / 2 := by
  refine ⟨rfl, by decide, by decide, by decide⟩

/-- C2: merging raw items A and D into the fully voted three-candidate
profile profFull appends new pairs to the pending queue, but the reducer
leaves totalComparisons at 3 instead of increasing it by the number of
newly appended pairs. -/
theorem c2_totalComparisons_fixed_on_merge :
    reducer sFull mergeAD 9 = .ok sFullAfter ∧
    jsGet sFull.profiles "f" = some profFull ∧
    jsGet sFullAfter.profiles "f" = some profFullAfter ∧
    profFull.pairs.length = 0 ∧
    profFullAfter.pairs.length = 3 ∧
    profFull.totalComparisons = 3 ∧
    profFullAfter.totalComparisons = 3 ∧
    profFullAfter.totalComparisons ≠ profFull.totalComparisons + 3 := by
  refine ⟨rfl, by decide, by decide, rfl, rfl, rfl, rfl, by decide⟩

/-- C4: the derived progress value totalComparisons minus pending length
drops from 3 to 0 across the single mergeCandidates action mergeAD on
sFull, refuting that progress never decreases from one state to the
next. -/
theorem c4_progress_decreases_on_merge :
    reducer sFull mergeAD 9 = .ok sFullAfter ∧
    jsGet sFull.profiles "f" = some profFull ∧
    jsGet sFullAfter.profiles "f" = some profFullAfter ∧
    progress profFull = 3 ∧
    progress profFullAfter = 0 ∧
    progress profFullAfter < progress profFull := by
  refine ⟨rfl, by decide, by decide, by decide, by decide, by decide⟩

/-- C5: vote validation is absent. Voting pair index 5 of a one-pair
queue throws no IndexOutOfRangeError: the reducer returns a new state
whose queue is untouched but whose winner score has still been
incremented, so the prior state is not left intact either. Voting for
the id Z, known to no pair and no candidate, throws no
UnknownCandidateError: a Z entry with a NaN score is silently created. -/
theorem c5_vote_invalid_inputs_not_rejected :
    sW.currentProfile = some "p" ∧
    jsGet sW.profiles "p" = some profW ∧
    profW.pairs.length = 1 ∧
    reducer sW (.pairVote 5 "A") 7 = .ok sWOor ∧
    jsGet sWOor.profiles "p" = some profWOor ∧
    profWOor.pairs = profW.pairs ∧
    jsGet profW.list "A" = some (candOf "A" 0) ∧
    jsGet profWOor.list "A" = some (candOf "A" 1) ∧
    jsGet profW.list "Z" = none ∧
    reducer sW (.pairVote 0 "Z") 7 = .ok sWZ ∧
    jsGet sWZ.profiles "p" = some profWZ ∧
    jsGet profWZ.list "Z" = some emptyCand ∧
    emptyCand.score = none := by
  refine ⟨rfl, by decide, rfl, rfl, by decide, by decide, by decide, by decide,
    by decide, rfl, by decide, by decide, rfl⟩

/-- C9: mergeCandidates overwrites the records of already present
candidates with the freshly normalized entries: candidate A had score 2
in profFull, and after merging raw items A and D its score has been
reset to 0 instead of being preserved. -/
theorem c9_merge_overwrites_existing_scores :
    jsGet profFull.list "A" = some (candOf "A" 2) ∧
    reducer sFull mergeAD 9 = .ok sFullAfter ∧
    jsGet sFullAfter.profiles "f" = some profFullAfter ∧
    jsGet profFullAfter.list "A" = some (candOf "A" 0) ∧
    candOf "A" 0 ≠ candOf "A" 2 := by
  refine ⟨by decide, rfl, by decide, by decide, by decide⟩

/-- C8: setCurrentProfile fails with the invalid-profile error exactly
when the id keys no entry of the profiles map — a throw that leaves the
previous state with the caller — and otherwise only currentProfile
changes: the profiles map is returned untouched. -/
theorem c8_set_current_profile (s : ProfileState) (i : String) (now : Nat) :
    (jsGet s.profiles i = none →
      reducer s (.profileSetCurrent i) now =
        .error ("Invalid profile supplied: " ++ i)) ∧
    (∀ p, jsGet s.profiles i = some p →
      reducer s (.profileSetCurrent i) now =
        .ok { currentProfile := some i, profiles := s.profiles }) := by
  constructor
  · intro h
    simp only [reducer, h]
  · intro p h
    simp only [reducer, h]

theorem c8_set_current_profile_witness :
    reducer sW (.profileSetCurrent "q") 0 =
      .error ("Invalid profile supplied: " ++ "q") ∧
    reducer sW (.profileSetCurrent "p") 0 =
      .ok { currentProfile := some "p", profiles := sW.profiles } :=
  ⟨(c8_set_current_profile sW "q" 0).1 (by decide),
   (c8_set_current_profile sW "p" 0).2 profW (by decide)⟩

/-- C7: skipping a valid pending index leaves the queue length, the
candidate map (hence every score) and totalComparisons unchanged; the
queue is the old queue with only the targeted entry replaced by a copy
whose skipped counter is one higher, so the pair ids of the pending
queue — its membership — are unchanged and the pair remains pending. -/
theorem c7_skip_frame (s : ProfileState) (cp : String) (prof : ProfileItem)
    (i : Nat) (now : Nat)
    (h1 : s.currentProfile = some cp) (h2 : jsGet s.profiles cp = some prof)
    (h3 : i < prof.pairs.length) :
    ∃ s2 prof2,
      reducer s (.pairSkip i) now = .ok s2 ∧
      jsGet s2.profiles cp = some prof2 ∧
      prof2.pairs.length = prof.pairs.length ∧
      prof2.list = prof.list ∧
      prof2.totalComparisons = prof.totalComparisons ∧
      prof2.pairs = prof.pairs.set i
        { prof.pairs.get ⟨i, h3⟩ with
          skipped := (prof.pairs.get ⟨i, h3⟩).skipped + 1 } ∧
      prof2.pairs.map VPair.id = prof.pairs.map VPair.id := by
  refine ⟨_, _, reducer_skip_eq s cp prof i now h1 h2 h3, jsGet_jsSet_self _ _ _,
    List.length_set prof.pairs i _, rfl, rfl, rfl, ?_⟩
  show (prof.pairs.set i _).map VPair.id = prof.pairs.map VPair.id
  rw [List.map_set]
  have hm : i < (prof.pairs.map VPair.id).length := by simpa using h3
  have hid : ({ prof.pairs.get ⟨i, h3⟩ with
      skipped := (prof.pairs.get ⟨i, h3⟩).skipped + 1 } : VPair).id =
      (prof.pairs.map VPair.id).get ⟨i, hm⟩ := by
    simp [List.getElem_map]
  rw [hid, list_set_get_self]

theorem c7_skip_frame_witness :
    ∃ s2 prof2,
      reducer sW (.pairSkip 0) 5 = .ok s2 ∧
      jsGet s2.profiles "p" = some prof2 ∧
      prof2.pairs.length = profW.pairs.length ∧
      prof2.list = profW.list ∧
      prof2.totalComparisons = profW.totalComparisons ∧
      prof2.pairs = profW.pairs.set 0
        { profW.pairs.get ⟨0, by decide⟩ with
          skipped := (profW.pairs.get ⟨0, by decide⟩).skipped + 1 } ∧
      prof2.pairs.map VPair.id = profW.pairs.map VPair.id :=
  c7_skip_frame sW "p" profW 0 5 rfl (by decide) (by decide)

/-- C6: a valid vote — current profile selected, index inside the
pending queue, winner a side of that pair and a candidate with a numeric
score — removes exactly the targeted pair (queue length drops by one),
increments exactly the winner score by one leaving every other
candidate record unchanged, and raises the score total by one; hence
over any sequence of valid votes the score total grows by the number of
votes, and from a freshly added profile (all scores zero) it equals the
number of votes cast. -/
theorem c6_vote_effects :
    (∀ (s : ProfileState) (cp : String) (prof : ProfileItem) (i : Nat) (w : String)
        (c : Cand) (n : Nat) (now : Nat)
        (h1 : s.currentProfile = some cp) (h2 : jsGet s.profiles cp = some prof)
        (h3 : i < prof.pairs.length),
      (w = (prof.pairs.get ⟨i, h3⟩).leftId ∨ w = (prof.pairs.get ⟨i, h3⟩).rightId) →
      jsGet prof.list w = some c →
      c.score = some n →
      ∃ s2 prof2,
        reducer s (.pairVote i w) now = .ok s2 ∧
        jsGet s2.profiles cp = some prof2 ∧
        prof2.pairs.length + 1 = prof.pairs.length ∧
        prof2.pairs = prof.pairs.take i ++ prof.pairs.drop (i + 1) ∧
        jsGet prof2.list w = some { c with score := some (n + 1) } ∧
        (∀ k2, k2 ≠ w → jsGet prof2.list k2 = jsGet prof.list k2) ∧
        sumScores prof2.list = sumScores prof.list + 1) ∧
    (∀ (s : ProfileState) (vs : List (Nat × String)), validVotes s vs = true →
      sumCur (applyVotes s vs) = sumCur s + vs.length) ∧
    (∀ (pid nm : String) (raw : List CItem) (pl : List VPair)
        (vs : List (Nat × String)) (now : Nat) (s1 : ProfileState),
      reducer { currentProfile := none, profiles := [] }
          (.profileAdd pid nm (nameMapOf raw) pl) now = .ok s1 →
      validVotes s1 vs = true →
      sumCur (applyVotes s1 vs) = vs.length) := by
  refine ⟨?_, fun s vs h => votes_sum vs s h, ?_⟩
  · intro s cp prof i w c n now h1 h2 h3 hside hc hn
    refine ⟨_, _, reducer_vote_eq s cp prof i w now h1 h2, jsGet_jsSet_self _ _ _,
      jsSplice1_length prof.pairs i h3, rfl, ?_, ?_, ?_⟩
    · show jsGet (listReducer prof.list (.pairVote i w) w) w = _
      simp [listReducer, hc, jsGet_jsSet_self, jsIncScore, hn]
    · intro k2 hk2
      show jsGet (listReducer prof.list (.pairVote i w) w) k2 = _
      simp only [listReducer, hc]
      exact jsGet_jsSet_ne prof.list w k2 _ hk2
    · show sumScores (listReducer prof.list (.pairVote i w) w) = _
      have hsum := sumScores_jsSet prof.list w c (jsIncScore c) hc
      rw [hn] at hsum
      have hinc : (jsIncScore c).score = some (n + 1) := by simp [jsIncScore, hn]
      rw [hinc] at hsum
      simp only [Option.getD_some] at hsum
      simp only [listReducer, hc]
      omega
  · intro pid nm raw pl vs now s1 hadd hvv
    have hs1 : s1 =
        { currentProfile := some pid
          profiles := jsSet [] pid
            { name := nm
              list := nameMapOf raw
              dateTime := now
              pairs := pl
              totalComparisons := pl.length } } := by
      simp only [reducer, profileReducer] at hadd
      injection hadd with h
      exact h.symm
    have h0 : sumCur s1 = 0 := by
      rw [hs1]
      simp only [sumCur, jsGet_jsSet_self]
      exact sumScores_nameMapOf raw
    rw [votes_sum vs s1 hvv, h0, Nat.zero_add]

theorem c6_vote_effects_witness :
    (∃ s2 prof2,
      reducer sW (.pairVote 0 "A") 5 = .ok s2 ∧
      jsGet s2.profiles "p" = some prof2 ∧
      prof2.pairs.length + 1 = profW.pairs.length ∧
      prof2.pairs = profW.pairs.take 0 ++ profW.pairs.drop 1 ∧
      jsGet prof2.list "A" = some { candOf "A" 0 with score := some 1 } ∧
      (∀ k2, k2 ≠ "A" → jsGet prof2.list k2 = jsGet profW.list k2) ∧
      sumScores prof2.list = sumScores profW.list + 1) ∧
    sumCur (applyVotes sW [(0, "A")]) = sumCur sW + 1 ∧
    sumCur (applyVotes sW [(0, "A")]) = 1 :=
  ⟨c6_vote_effects.1 sW "p" profW 0 "A" (candOf "A" 0) 0 5 rfl (by decide)
      (by decide) (Or.inl (by decide)) (by decide) rfl,
   by
    have h := c6_vote_effects.2.1 sW [(0, "A")] (by decide)
    simpa using h,
   by
    have h := c6_vote_effects.2.2 "p" "w" rawAB [pAB] [(0, "A")] 0 sW rfl (by decide)
    simpa using h⟩

/-- C10: the root-state invariant — a non-null currentProfile keys an
existing profile — is preserved by every action the reducer accepts:
whenever the reducer returns a new state rather than throwing, the new
state satisfies the invariant again (and a throw leaves the caller with
the old state, which satisfies it by assumption). -/
theorem c10_current_profile_invariant (s : ProfileState) (a : PAction) (now : Nat)
    (h : invCurrent s) :
    ∀ s2, reducer s a now = .ok s2 → invCurrent s2 := by
  intro s2 heq
  cases a with
  | profileSetCurrent i =>
    simp only [reducer] at heq
    rcases hg : jsGet s.profiles i with _ | p
    · rw [hg] at heq
      exact Except.noConfusion heq
    · rw [hg] at heq
      injection heq with heq
      subst heq
      intro cp hcp
      have : i = cp := Option.some.inj hcp
      subst this
      simp [hg]
  | profileAdd pid nm mp pl =>
    simp only [reducer, profileReducer] at heq
    injection heq with heq
    subst heq
    intro cp hcp
    have : pid = cp := Option.some.inj hcp
    subst this
    simp [jsGet_jsSet_self]
  | listResetRows nm pl =>
    simp only [reducer, reduceCurrent] at heq
    rcases hc : s.currentProfile with _ | cp0
    · rw [hc] at heq
      exact Except.noConfusion heq
    simp only [hc] at heq
    rcases hg : jsGet s.profiles cp0 with _ | prof
    · rw [hg] at heq
      exact Except.noConfusion heq
    simp only [hg] at heq
    cases hp : profileReducer s.profiles (.listResetRows nm pl) cp0 now with
    | error e =>
      rw [hp] at heq
      exact Except.noConfusion heq
    | ok ps2 =>
      simp only [hp] at heq
      injection heq with heq
      subst heq
      intro cp hcp
      have hcc : cp0 = cp := Option.some.inj hcp
      subst hcc
      rcases profileReducer_ok_shape s.profiles _ cp0 now ps2 hp with ⟨P, hP⟩ | hP
      · subst hP
        simp [jsGet_jsSet_self]
      · subst hP
        simp [hg]
  | pairSkip i =>
    simp only [reducer, reduceCurrent] at heq
    rcases hc : s.currentProfile with _ | cp0
    · rw [hc] at heq
      exact Except.noConfusion heq
    simp only [hc] at heq
    rcases hg : jsGet s.profiles cp0 with _ | prof
    · rw [hg] at heq
      exact Except.noConfusion heq
    simp only [hg] at heq
    cases hp : profileReducer s.profiles (.pairSkip i) cp0 now with
    | error e =>
      rw [hp] at heq
      exact Except.noConfusion heq
    | ok ps2 =>
      simp only [hp] at heq
      injection heq with heq
      subst heq
      intro cp hcp
      have hcc : cp0 = cp := Option.some.inj hcp
      subst hcc
      rcases profileReducer_ok_shape s.profiles _ cp0 now ps2 hp with ⟨P, hP⟩ | hP
      · subst hP
        simp [jsGet_jsSet_self]
      · subst hP
        simp [hg]
  | pairVote i w =>
    simp only [reducer, reduceCurrent] at heq
    rcases hc : s.currentProfile with _ | cp0
    · rw [hc] at heq
      exact Except.noConfusion heq
    simp only [hc] at heq
    rcases hg : jsGet s.profiles cp0 with _ | prof
    · rw [hg] at heq
      exact Except.noConfusion heq
    simp only [hg] at heq
    cases hp : profileReducer s.profiles (.pairVote i w) cp0 now with
    | error e =>
      rw [hp] at heq
      exact Except.noConfusion heq
    | ok ps2 =>
      simp only [hp] at heq
      injection heq with heq
      subst heq
      intro cp hcp
      have hcc : cp0 = cp := Option.some.inj hcp
      subst hcc
      rcases profileReducer_ok_shape s.profiles _ cp0 now ps2 hp with ⟨P, hP⟩ | hP
      · subst hP
        simp [jsGet_jsSet_self]
      · subst hP
        simp [hg]
  | unknownAction =>
    simp only [reducer] at heq
    injection heq with heq
    subst heq
    exact h

theorem c10_current_profile_invariant_witness : invCurrent sWVoted :=
  c10_current_profile_invariant sW (.pairVote 0 "A") 5
    (by
      intro cp hcp
      have : "p" = cp := Option.some.inj hcp
      subst this
      rfl)
    sWVoted rfl

/-- C3: mergeCandidates — modelled from the spec with existingPairIds
drawn from the lifetime pair history, pending plus voted — never appends
a pair whose symmetric id is already pending or already voted; and run
twice in a row with the same raw items (no votes in between, so the
voted ids are unchanged) it appends pairs only the first time: the
second call leaves the pending queue exactly as it was. The hypotheses
state the profile invariants: pending ids and candidate keys are
duplicate free and the freshly generated pair ids are duplicate free. -/
theorem c3_merge_never_duplicates (s : ProfileState) (cp : String)
    (prof : ProfileItem) (votedIds : List String) (raw : List CItem)
    (now now2 : Nat)
    (h1 : s.currentProfile = some cp)
    (h2 : jsGet s.profiles cp = some prof)
    (hpend : (prof.pairs.map VPair.id).Nodup)
    (hkeys : (prof.list.map Prod.fst).Nodup)
    (hnew : ((generatePairs ((jsMerge prof.list (nameMapOf raw)).map Prod.fst)
        (pendingIds prof ++ votedIds)).map VPair.id).Nodup) :
    ∃ s2 prof2,
      reducer s (mergeAction prof votedIds raw) now = .ok s2 ∧
      jsGet s2.profiles cp = some prof2 ∧
      prof2.pairs = prof.pairs ++
        generatePairs ((jsMerge prof.list (nameMapOf raw)).map Prod.fst)
          (pendingIds prof ++ votedIds) ∧
      (∀ p ∈ generatePairs ((jsMerge prof.list (nameMapOf raw)).map Prod.fst)
          (pendingIds prof ++ votedIds),
        p.id ∉ pendingIds prof ∧ p.id ∉ votedIds) ∧
      ∃ s3 prof3,
        reducer s2 (mergeAction prof2 votedIds raw) now2 = .ok s3 ∧
        jsGet s3.profiles cp = some prof3 ∧
        prof3.pairs = prof2.pairs := by
  have hfresh := gen_fresh ((jsMerge prof.list (nameMapOf raw)).map Prod.fst)
    (pendingIds prof ++ votedIds)
  have hdisj : (prof.pairs.map VPair.id).Disjoint
      ((generatePairs ((jsMerge prof.list (nameMapOf raw)).map Prod.fst)
        (pendingIds prof ++ votedIds)).map VPair.id) := by
    intro x hx hy
    rcases List.mem_map.1 hy with ⟨p, hp, hpx⟩
    exact hfresh p hp (List.mem_append.2 (Or.inl (hpx ▸ hx)))
  have hnd1 : ((prof.pairs ++
      generatePairs ((jsMerge prof.list (nameMapOf raw)).map Prod.fst)
        (pendingIds prof ++ votedIds)).map VPair.id).Nodup := by
    rw [List.map_append]
    exact hpend.append hnew hdisj
  have hstep1 := merge_step s cp prof (nameMapOf raw)
    (generatePairs ((jsMerge prof.list (nameMapOf raw)).map Prod.fst)
      (pendingIds prof ++ votedIds)) now h1 h2 hnd1
  refine ⟨_, _, hstep1, jsGet_jsSet_self _ _ _, rfl, ?_, ?_⟩
  · intro p hp
    have h5 := hfresh p hp
    exact ⟨fun hmem => h5 (List.mem_append.2 (Or.inl hmem)),
           fun hmem => h5 (List.mem_append.2 (Or.inr hmem))⟩
  · have hsub : ∀ x,
        x ∈ (jsMerge (jsMerge prof.list (nameMapOf raw)) (nameMapOf raw)).map Prod.fst →
        x ∈ (jsMerge prof.list (nameMapOf raw)).map Prod.fst := by
      intro x hx
      rcases (mem_keys_jsMerge _ _ x).1 hx with hx1 | hx1
      · exact hx1
      · exact (mem_keys_jsMerge _ _ x).2 (Or.inr hx1)
    have hnd2 : ((jsMerge (jsMerge prof.list (nameMapOf raw))
        (nameMapOf raw)).map Prod.fst).Nodup :=
      nodup_keys_jsMerge _ _ (nodup_keys_jsMerge _ _ hkeys)
    have hall : ∀ a ∈ (jsMerge (jsMerge prof.list (nameMapOf raw))
          (nameMapOf raw)).map Prod.fst,
        ∀ b ∈ (jsMerge (jsMerge prof.list (nameMapOf raw))
          (nameMapOf raw)).map Prod.fst,
        a ≠ b →
        pairId a b ∈ (prof.pairs ++
          generatePairs ((jsMerge prof.list (nameMapOf raw)).map Prod.fst)
            (pendingIds prof ++ votedIds)).map VPair.id ++ votedIds := by
      intro a ha b hb hne
      have ha1 := hsub a ha
      have hb1 := hsub b hb
      rcases gen_complete ((jsMerge prof.list (nameMapOf raw)).map Prod.fst)
          (pendingIds prof ++ votedIds) a b ha1 hb1 hne with hex | hgen
      · rcases List.mem_append.1 hex with hx | hx
        · refine List.mem_append.2 (Or.inl ?_)
          rw [List.map_append]
          exact List.mem_append.2 (Or.inl hx)
        · exact List.mem_append.2 (Or.inr hx)
      · refine List.mem_append.2 (Or.inl ?_)
        rw [List.map_append]
        exact List.mem_append.2 (Or.inr hgen)
    have hpl2 : generatePairs
        ((jsMerge (jsMerge prof.list (nameMapOf raw)) (nameMapOf raw)).map Prod.fst)
        ((prof.pairs ++
          generatePairs ((jsMerge prof.list (nameMapOf raw)).map Prod.fst)
            (pendingIds prof ++ votedIds)).map VPair.id ++ votedIds) = [] :=
      gen_all_existing _ _ hnd2 hall
    have hnd3 : (((prof.pairs ++
        generatePairs ((jsMerge prof.list (nameMapOf raw)).map Prod.fst)
          (pendingIds prof ++ votedIds)) ++
        generatePairs
          ((jsMerge (jsMerge prof.list (nameMapOf raw)) (nameMapOf raw)).map Prod.fst)
          ((prof.pairs ++
            generatePairs ((jsMerge prof.list (nameMapOf raw)).map Prod.fst)
              (pendingIds prof ++ votedIds)).map VPair.id ++ votedIds)).map
        VPair.id).Nodup := by
      rw [hpl2, List.append_nil]
      exact hnd1
    have hstep2 := merge_step
      { s with
        profiles := jsSet s.profiles cp
          { prof with
            dateTime := now
            list := jsMerge prof.list (nameMapOf raw)
            pairs := prof.pairs ++
              generatePairs ((jsMerge prof.list (nameMapOf raw)).map Prod.fst)
                (pendingIds prof ++ votedIds) } }
      cp
      { prof with
        dateTime := now
        list := jsMerge prof.list (nameMapOf raw)
        pairs := prof.pairs ++
          generatePairs ((jsMerge prof.list (nameMapOf raw)).map Prod.fst)
            (pendingIds prof ++ votedIds) }
      (nameMapOf raw)
      (generatePairs
        ((jsMerge (jsMerge prof.list (nameMapOf raw)) (nameMapOf raw)).map Prod.fst)
        ((prof.pairs ++
          generatePairs ((jsMerge prof.list (nameMapOf raw)).map Prod.fst)
            (pendingIds prof ++ votedIds)).map VPair.id ++ votedIds))
      now2 h1 (jsGet_jsSet_self _ _ _) hnd3
    refine ⟨_, _, hstep2, jsGet_jsSet_self _ _ _, ?_⟩
    show _ ++ _ = _
    rw [hpl2, List.append_nil]

theorem c3_merge_never_duplicates_witness :
    ∃ s2 prof2,
      reducer sW (mergeAction profW [] rawAD) 5 = .ok s2 ∧
      jsGet s2.profiles "p" = some prof2 ∧
      ∃ s3 prof3,
        reducer s2 (mergeAction prof2 [] rawAD) 6 = .ok s3 ∧
        jsGet s3.profiles "p" = some prof3 ∧
        prof3.pairs = prof2.pairs := by
  obtain ⟨s2, prof2, ha, hb, _, _, he⟩ :=
    c3_merge_never_duplicates sW "p" profW [] rawAD 5 6 rfl (by decide)
      (by decide) (by decide) (by decide)
  exact ⟨s2, prof2, ha, hb, he⟩
